import Mathlib

/-
Verification of the duosense controller merger against its specification.

The development shallowly embeds the two source modules:

* `duosense.py` — `ControllerMerger.combine_inputs` merges the two players'
  button dictionaries and axis dictionaries into the combined state.
  Python dictionaries with default values (`defaultdict(bool)` /
  `defaultdict(float)` and `.get(k, default)`) are embedded as association
  lists `List (String × α)` together with a defaulting lookup `dget`;
  iteration over `dict.items()` is embedded as `List.foldl` over the
  association list, and insertion of a fresh key as appending.  Python float
  values are embedded as rationals `ℚ` (the merge logic only compares values
  against the deadzone and copies them, so the embedding is exact).

* `virtualcontroller.py` — `VirtualController` with `start`, `stop`,
  `update_state` and `_output_loop`.  The object's scalar state is the
  record `VCState`; a spawned output-loop thread is modelled by the counter
  `output_threads` of live output loops.  The aliasing behaviour of
  `update_state` (it stores `.copy()` of its arguments) is modelled with an
  explicit heap of dictionary cells (`PyHeap`).  The body of `_output_loop`
  reads the shared field `self.state` twice (once for the buttons, once for
  the axes); `outputTickSent` therefore takes the two, possibly different,
  values of that field observed at the two reads.

Rational constants are written with the raw `Rat` constructor (numerator,
denominator, proofs) so that all definitions evaluate by kernel reduction.
-/

/-- The analog deadzone constant `0.1` from `combine_inputs`
(`abs(value) > 0.1`).  Written with the raw constructor as the rational
1/10 so that comparisons against it evaluate by `decide`. -/
def deadzone : ℚ := ⟨1, 10, by decide, by decide⟩

/-- Defaulting lookup on an association list: the embedding of
`d.get(k, dflt)` on a Python dict, and of `d[k]` on a `defaultdict`.
Returns the first binding of the key, or the default when absent. -/
def dget {α : Type} (dflt : α) : List (String × α) → String → α
  | [], _ => dflt
  | p :: t, k => if p.1 = k then p.2 else dget dflt t k

/-- Button-dictionary lookup, default `False` (`defaultdict(bool)` /
`.get(name, False)` in the source). -/
def dgetB (d : List (String × Bool)) (k : String) : Bool := dget false d k

/-- Axis-dictionary lookup, default `0.0` (`defaultdict(float)` /
`.get(name, 0)` in the source). -/
def dgetA (d : List (String × ℚ)) (k : String) : ℚ := dget 0 d k

/-- The keys of an embedded dictionary. -/
def keys {α : Type} (d : List (String × α)) : List String := d.map Prod.fst

/-- A well-formed embedded dictionary binds each key at most once
(Python dicts always satisfy this). -/
def keysNodup {α : Type} (d : List (String × α)) : Prop := (keys d).Nodup

instance {α : Type} (d : List (String × α)) : Decidable (keysNodup d) := by
  unfold keysNodup
  infer_instance

/-- One step of the first button loop of `combine_inputs`
(duosense.py:279-281): `if state: combined_state[input_name] = True`. -/
def bStep1 (c : List (String × Bool)) (p : String × Bool) : List (String × Bool) :=
  if p.2 then c ++ [(p.1, true)] else c

/-- One step of the second button loop of `combine_inputs`
(duosense.py:283-286):
`if state and not combined_state.get(input_name, False): combined_state[input_name] = True`. -/
def bStep2 (c : List (String × Bool)) (p : String × Bool) : List (String × Bool) :=
  if p.2 && !(dgetB c p.1) then c ++ [(p.1, true)] else c

/-- One step of the first axis loop of `combine_inputs`
(duosense.py:290-293): `if abs(value) > 0.1: combined_axes[axis_name] = value`. -/
def aStep1 (c : List (String × ℚ)) (p : String × ℚ) : List (String × ℚ) :=
  if deadzone < |p.2| then c ++ [p] else c

/-- One step of the second axis loop of `combine_inputs`
(duosense.py:295-298):
`if abs(value) > 0.1 and abs(combined_axes.get(axis_name, 0)) <= 0.1: combined_axes[axis_name] = value`. -/
def aStep2 (c : List (String × ℚ)) (p : String × ℚ) : List (String × ℚ) :=
  if deadzone < |p.2| ∧ |dgetA c p.1| ≤ deadzone then c ++ [p] else c

/-- The button half of `ControllerMerger.combine_inputs`
(duosense.py:274-286): starting from a cleared combined state, run the
player-1 loop and then the player-2 loop. -/
def combineButtons (p1 p2 : List (String × Bool)) : List (String × Bool) :=
  p2.foldl bStep2 (p1.foldl bStep1 [])

/-- The axis half of `ControllerMerger.combine_inputs`
(duosense.py:274-298): starting from a cleared combined state, run the
player-1 loop and then the player-2 loop. -/
def combineAxes (p1 p2 : List (String × ℚ)) : List (String × ℚ) :=
  p2.foldl aStep2 (p1.foldl aStep1 [])

/-- Every button entry stored in a combined dictionary is `true`. -/
def allTrue (c : List (String × Bool)) : Prop := ∀ p ∈ c, p.2 = true

/-- Every axis entry stored in a combined dictionary is outside the deadzone. -/
def allLive (c : List (String × ℚ)) : Prop := ∀ p ∈ c, deadzone < |p.2|

/-- The dictionary assigned to `self.state` by
`VirtualController.update_state` (virtualcontroller.py:53-58): a buttons
dictionary and an axes dictionary. -/
structure HeldState where
  buttons : List (String × Bool)
  axes : List (String × ℚ)
deriving DecidableEq

/-- Python's `round(v, 2)` used by the output loop when logging axis
values (virtualcontroller.py:71), with the tie rule fixed to half-up. -/
def round2 (v : ℚ) : ℚ := (round (v * 100) : ℚ) / 100

/-- Line 70 of `_output_loop`:
`active_buttons = [k for k, v in self.state.get("buttons", {}).items() if v]`. -/
def activeButtons (st : HeldState) : List String :=
  (st.buttons.filter (fun p => p.2)).map Prod.fst

/-- Line 71 of `_output_loop`:
`active_axes = {k: round(v, 2) for k, v in self.state.get("axes", {}).items() if abs(v) > 0.1}`. -/
def activeAxes (st : HeldState) : List (String × ℚ) :=
  (st.axes.filter (fun p => decide (deadzone < |p.2|))).map (fun p => (p.1, round2 p.2))

/-- The data one iteration of `_output_loop` assembles for sending
(virtualcontroller.py:70-74).  The loop body performs two separate reads
of the shared field `self.state`: `st1` is the value observed by the read
on line 70 (buttons) and `st2` the value observed by the read on line 71
(axes).  `update_state` swaps `self.state` atomically, so under a
concurrent update the two reads may observe different held states. -/
def outputTickSent (st1 st2 : HeldState) : List String × List (String × ℚ) :=
  (activeButtons st1, activeAxes st2)

/-- The scalar state of a `VirtualController` object
(virtualcontroller.py:16-20).  `inited` embeds `is_initialized`;
`output_threads` counts the live output-loop threads (each call of
`start` spawns a fresh `threading.Thread(target=self._output_loop)`, and
a loop thread exits only when it observes `is_running == False`). -/
structure VCState where
  inited : Bool
  is_running : Bool
  output_threads : Nat
  state : HeldState
deriving DecidableEq

/-- `VirtualController.start` (virtualcontroller.py:31-41): returns
`False` when not initialized; otherwise sets `is_running`, spawns a fresh
output-loop thread, and returns `True`. -/
def VCState.start (s : VCState) : VCState × Bool :=
  if s.inited = false then (s, false)
  else ({ s with is_running := true, output_threads := s.output_threads + 1 }, true)

/-- `VirtualController.stop` (virtualcontroller.py:43-51): returns at
once when not running; otherwise clears `is_running` and joins, after
which every output-loop thread has observed the cleared flag and exited. -/
def VCState.stop (s : VCState) : VCState :=
  if s.is_running = false then s
  else { s with is_running := false, output_threads := 0 }

/-- A heap of dictionary cells, used to embed the aliasing behaviour of
`update_state`: Python dict objects are mutable and passed by reference,
so a dictionary value is a cell index into the heap.  Button cells and
axis cells are kept in separate stores. -/
structure PyHeap where
  bcells : List (List (String × Bool))
  acells : List (List (String × ℚ))

/-- Dereference a button-dictionary cell. -/
def PyHeap.readB (h : PyHeap) (r : Nat) : List (String × Bool) := h.bcells.getD r []

/-- Dereference an axis-dictionary cell. -/
def PyHeap.readA (h : PyHeap) (r : Nat) : List (String × ℚ) := h.acells.getD r []

/-- Overwrite the contents of a button-dictionary cell (a caller mutating
its dict in place). -/
def PyHeap.writeB (h : PyHeap) (r : Nat) (d : List (String × Bool)) : PyHeap :=
  { h with bcells := h.bcells.set r d }

/-- Overwrite the contents of an axis-dictionary cell (a caller mutating
its dict in place). -/
def PyHeap.writeA (h : PyHeap) (r : Nat) (d : List (String × ℚ)) : PyHeap :=
  { h with acells := h.acells.set r d }

/-- The pair of cells held in `self.state` after `update_state`. -/
structure StoredRefs where
  buttonsRef : Nat
  axesRef : Nat

/-- `VirtualController.update_state` (virtualcontroller.py:53-58) over the
cell heap: given the caller's two cells, it allocates fresh cells holding
`buttons.copy()` and `axes.copy()` and stores references to the fresh
cells, not to the caller's. -/
def update_state (h : PyHeap) (buttons axes : Nat) : PyHeap × StoredRefs :=
  let h1 : PyHeap := { h with bcells := h.bcells ++ [h.readB buttons] }
  let h2 : PyHeap := { h1 with acells := h1.acells ++ [h1.readA axes] }
  (h2, ⟨h.bcells.length, h.acells.length⟩)

/-- Modelled from the spec: the report encoder's axis scaling.  The
repository contains no report encoder (the `_output_loop` placeholder in
virtualcontroller.py only logs the held state); spec §4.2 gives the
transform `scaled = round((value + 1.0) * 127.5)` clamped into [0, 255],
and asks for the tie rule to be fixed, which this model fixes to
round-half-up (`round` on `ℚ`).  `127.5` is the rational `255/2`. -/
def scaleAxis (v : ℚ) : ℤ := min 255 (max 0 (round ((v + 1) * (255 / 2))))

/-- The rational 1/2 (axis value 0.5), written with the raw constructor. -/
def qhalf : ℚ := ⟨1, 2, by decide, by decide⟩

/-- The rational 1/20 (axis value 0.05, inside the deadzone), written
with the raw constructor. -/
def qtwentieth : ℚ := ⟨1, 20, by decide, by decide⟩

/-- The rational -4/5 (axis value -0.8), written with the raw constructor. -/
def qneg45 : ℚ := ⟨-4, 5, by decide, by decide⟩

/-- A held state whose only content is a pressed `button_0`, as produced
by one `update_state` call. -/
def heldU1 : HeldState := ⟨[("button_0", true)], []⟩

/-- A held state whose only content is `axis_0` at 0.5, as produced by a
later `update_state` call. -/
def heldU2 : HeldState := ⟨[], [("axis_0", qhalf)]⟩

/-- An initialized, not yet started `VirtualController`. -/
def vcInit : VCState := ⟨true, false, 0, ⟨[], []⟩⟩

/-- A two-cell heap: one button dictionary `{button_0: True}` and one
axis dictionary `{axis_0: 0.5}`. -/
def heap0 : PyHeap := ⟨[[("button_0", true)]], [[("axis_0", qhalf)]]⟩

theorem deadzone_eq : deadzone = 1 / 10 := by
  rw [deadzone, Rat.mk'_eq_divInt, Rat.divInt_eq_div]
  norm_num

theorem deadzone_pos : 0 < deadzone := by decide

theorem not_deadzone_lt_abs_zero : ¬ deadzone < |(0 : ℚ)| := by
  rw [abs_zero]
  exact not_lt.mpr (le_of_lt deadzone_pos)

theorem keys_cons {α : Type} (p : String × α) (t : List (String × α)) :
    keys (p :: t) = p.1 :: keys t := rfl

theorem keys_append {α : Type} (c d : List (String × α)) :
    keys (c ++ d) = keys c ++ keys d := by
  simp [keys]

theorem dget_of_not_mem {α : Type} (dflt : α) (d : List (String × α)) (k : String)
    (h : k ∉ keys d) : dget dflt d k = dflt := by
  induction d with
  | nil => rfl
  | cons p t ih =>
    rw [keys_cons] at h
    simp only [List.mem_cons, not_or] at h
    simp only [dget]
    rw [if_neg (fun he => h.1 he.symm)]
    exact ih h.2

theorem dget_append {α : Type} (dflt : α) (c d : List (String × α)) (k : String) :
    dget dflt (c ++ d) k = if k ∈ keys c then dget dflt c k else dget dflt d k := by
  induction c with
  | nil => simp [keys, dget]
  | cons p t ih =>
    simp only [List.cons_append, List.append_eq, dget, keys_cons, List.mem_cons]
    by_cases h : p.1 = k
    · simp [h]
    · rw [if_neg h, ih]
      by_cases hm : k ∈ keys t
      · simp [hm, dget, if_neg h]
      · have hkp : ¬ k = p.1 := fun he => h he.symm
        simp [hm, hkp]

theorem dget_append_single_ne {α : Type} (dflt : α) (c : List (String × α))
    (j k : String) (v : α) (h : j ≠ k) :
    dget dflt (c ++ [(j, v)]) k = dget dflt c k := by
  rw [dget_append]
  by_cases hk : k ∈ keys c
  · rw [if_pos hk]
  · rw [if_neg hk, dget_of_not_mem dflt c k hk]
    simp [dget, h]

theorem allTrue_dget : ∀ (c : List (String × Bool)), allTrue c →
    ∀ k, k ∈ keys c → dgetB c k = true := by
  intro c
  induction c with
  | nil => intro _ k hk; simp [keys] at hk
  | cons p t ih =>
    intro h k hk
    simp only [dgetB, dget]
    by_cases hp : p.1 = k
    · rw [if_pos hp]
      exact h p (List.mem_cons_self p t)
    · rw [if_neg hp]
      rw [keys_cons] at hk
      rcases List.mem_cons.mp hk with h1 | h2
      · exact absurd h1.symm hp
      · exact ih (fun q hq => h q (List.mem_cons_of_mem p hq)) k h2

theorem allLive_dget : ∀ (c : List (String × ℚ)), allLive c →
    ∀ k, k ∈ keys c → deadzone < |dgetA c k| := by
  intro c
  induction c with
  | nil => intro _ k hk; simp [keys] at hk
  | cons p t ih =>
    intro h k hk
    simp only [dgetA, dget]
    by_cases hp : p.1 = k
    · rw [if_pos hp]
      exact h p (List.mem_cons_self p t)
    · rw [if_neg hp]
      rw [keys_cons] at hk
      rcases List.mem_cons.mp hk with h1 | h2
      · exact absurd h1.symm hp
      · exact ih (fun q hq => h q (List.mem_cons_of_mem p hq)) k h2

theorem allTrue_bStep1 (c : List (String × Bool)) (p : String × Bool)
    (h : allTrue c) : allTrue (bStep1 c p) := by
  unfold bStep1
  split
  · intro q hq
    rcases List.mem_append.mp hq with h1 | h2
    · exact h q h1
    · simp at h2
      rw [h2]
  · exact h

theorem allTrue_bStep2 (c : List (String × Bool)) (p : String × Bool)
    (h : allTrue c) : allTrue (bStep2 c p) := by
  unfold bStep2
  split
  · intro q hq
    rcases List.mem_append.mp hq with h1 | h2
    · exact h q h1
    · simp at h2
      rw [h2]
  · exact h

theorem allLive_aStep1 (c : List (String × ℚ)) (p : String × ℚ)
    (h : allLive c) : allLive (aStep1 c p) := by
  unfold aStep1
  split
  · intro q hq
    rcases List.mem_append.mp hq with h1 | h2
    · exact h q h1
    · simp at h2
      rw [h2]
      assumption
  · exact h

theorem allLive_aStep2 (c : List (String × ℚ)) (p : String × ℚ)
    (h : allLive c) : allLive (aStep2 c p) := by
  unfold aStep2
  split
  · intro q hq
    rcases List.mem_append.mp hq with h1 | h2
    · exact h q h1
    · simp at h2
      rw [h2]
      rename_i hc
      exact hc.1
  · exact h

theorem allTrue_foldl_bStep1 : ∀ (l : List (String × Bool)) (c), allTrue c →
    allTrue (l.foldl bStep1 c) := by
  intro l
  induction l with
  | nil => intro c h; exact h
  | cons p t ih => intro c h; exact ih _ (allTrue_bStep1 c p h)

theorem allTrue_foldl_bStep2 : ∀ (l : List (String × Bool)) (c), allTrue c →
    allTrue (l.foldl bStep2 c) := by
  intro l
  induction l with
  | nil => intro c h; exact h
  | cons p t ih => intro c h; exact ih _ (allTrue_bStep2 c p h)

theorem allLive_foldl_aStep1 : ∀ (l : List (String × ℚ)) (c), allLive c →
    allLive (l.foldl aStep1 c) := by
  intro l
  induction l with
  | nil => intro c h; exact h
  | cons p t ih => intro c h; exact ih _ (allLive_aStep1 c p h)

theorem allLive_foldl_aStep2 : ∀ (l : List (String × ℚ)) (c), allLive c →
    allLive (l.foldl aStep2 c) := by
  intro l
  induction l with
  | nil => intro c h; exact h
  | cons p t ih => intro c h; exact ih _ (allLive_aStep2 c p h)

theorem dgetB_foldl_bStep1 : ∀ (l c : List (String × Bool)), keysNodup l →
    (∀ k ∈ keys l, k ∉ keys c) →
    ∀ b, dgetB (l.foldl bStep1 c) b = (dgetB c b || dgetB l b) := by
  intro l
  induction l with
  | nil =>
    intro c _ _ b
    simp [dgetB, dget]
  | cons p t ih =>
    intro c hnd hdisj b
    obtain ⟨hp_t, hnd'⟩ : p.1 ∉ keys t ∧ (keys t).Nodup := by
      rw [keysNodup, keys_cons, List.nodup_cons] at hnd
      exact hnd
    have hdisj_t : ∀ k ∈ keys t, k ∉ keys c := by
      intro k hk
      exact hdisj k (by rw [keys_cons]; exact List.mem_cons_of_mem _ hk)
    rw [List.foldl_cons]
    cases hv : p.2 with
    | false =>
      have hstep : bStep1 c p = c := by simp [bStep1, hv]
      rw [hstep, ih c hnd' hdisj_t b]
      congr 1
      simp only [dgetB, dget]
      by_cases hpb : p.1 = b
      · rw [if_pos hpb, hv]
        rw [hpb] at hp_t
        exact dget_of_not_mem false t b hp_t
      · rw [if_neg hpb]
    | true =>
      have hstep : bStep1 c p = c ++ [(p.1, true)] := by simp [bStep1, hv]
      rw [hstep]
      have hdisj' : ∀ k ∈ keys t, k ∉ keys (c ++ [(p.1, true)]) := by
        intro k hk
        rw [keys_append]
        intro hmem
        rcases List.mem_append.mp hmem with h1 | h2
        · exact hdisj_t k hk h1
        · simp [keys] at h2
          exact hp_t (h2 ▸ hk)
      rw [ih _ hnd' hdisj' b]
      by_cases hpb : p.1 = b
      · have hbc : b ∉ keys c := hpb ▸ hdisj p.1 (by rw [keys_cons]; exact List.mem_cons_self _ _)
        have h1 : dgetB (c ++ [(p.1, true)]) b = true := by
          simp only [dgetB]
          rw [dget_append, if_neg hbc]
          simp [dget, hpb]
        have h2 : dgetB c b = false := dget_of_not_mem _ _ _ hbc
        have h3 : dgetB t b = false := dget_of_not_mem _ _ _ (hpb ▸ hp_t)
        have h4 : dgetB (p :: t) b = true := by
          simp only [dgetB, dget]
          rw [if_pos hpb, hv]
        rw [h1, h2, h3, h4]
        rfl
      · have h1 : dgetB (c ++ [(p.1, true)]) b = dgetB c b :=
          dget_append_single_ne _ _ _ _ _ hpb
        have h4 : dgetB (p :: t) b = dgetB t b := by
          simp only [dgetB, dget]
          rw [if_neg hpb]
        rw [h1, h4]

theorem dgetB_foldl_bStep2 : ∀ (l c : List (String × Bool)), allTrue c → keysNodup l →
    ∀ b, dgetB (l.foldl bStep2 c) b = (dgetB c b || dgetB l b) := by
  intro l
  induction l with
  | nil =>
    intro c _ _ b
    simp [dgetB, dget]
  | cons p t ih =>
    intro c hT hnd b
    obtain ⟨hp_t, hnd'⟩ : p.1 ∉ keys t ∧ (keys t).Nodup := by
      rw [keysNodup, keys_cons, List.nodup_cons] at hnd
      exact hnd
    rw [List.foldl_cons]
    by_cases hcond : (p.2 && !(dgetB c p.1)) = true
    · have hv : p.2 = true := by
        cases hp2 : p.2 with
        | true => rfl
        | false =>
          have hc := hcond
          simp [hp2] at hc
      have hcf : dgetB c p.1 = false := by
        cases hcb : dgetB c p.1 with
        | false => rfl
        | true =>
          have hc := hcond
          simp [hv, hcb] at hc
      have hpc : p.1 ∉ keys c := by
        intro hmem
        rw [allTrue_dget c hT p.1 hmem] at hcf
        exact Bool.noConfusion hcf
      have hstep : bStep2 c p = c ++ [(p.1, true)] := by rw [bStep2, if_pos hcond]
      rw [hstep]
      have hT' : allTrue (c ++ [(p.1, true)]) := by
        intro q hq
        rcases List.mem_append.mp hq with h1 | h2
        · exact hT q h1
        · simp at h2
          rw [h2]
      rw [ih _ hT' hnd' b]
      by_cases hpb : p.1 = b
      · have h1 : dgetB (c ++ [(p.1, true)]) b = true := by
          simp only [dgetB]
          rw [dget_append, if_neg (hpb ▸ hpc)]
          simp [dget, hpb]
        have h2 : dgetB c b = false := hpb ▸ hcf
        have h3 : dgetB t b = false := dget_of_not_mem _ _ _ (hpb ▸ hp_t)
        have h4 : dgetB (p :: t) b = true := by
          simp only [dgetB, dget]
          rw [if_pos hpb, hv]
        rw [h1, h2, h3, h4]
        rfl
      · have h1 : dgetB (c ++ [(p.1, true)]) b = dgetB c b :=
          dget_append_single_ne _ _ _ _ _ hpb
        have h4 : dgetB (p :: t) b = dgetB t b := by
          simp only [dgetB, dget]
          rw [if_neg hpb]
        rw [h1, h4]
    · have hstep : bStep2 c p = c := by rw [bStep2, if_neg hcond]
      rw [hstep, ih c hT hnd' b]
      by_cases hpb : p.1 = b
      · have h3 : dgetB t b = false := dget_of_not_mem _ _ _ (hpb ▸ hp_t)
        have h4 : dgetB (p :: t) b = p.2 := by
          simp only [dgetB, dget]
          rw [if_pos hpb]
        rw [h3, h4]
        cases hv : p.2 with
        | false => rfl
        | true =>
          have hct : dgetB c p.1 = true := by
            cases hcb : dgetB c p.1 with
            | false => exact absurd (by rw [hv, hcb]; rfl) hcond
            | true => rfl
          rw [hpb] at hct
          rw [hct]
          rfl
      · have h4 : dgetB (p :: t) b = dgetB t b := by
          simp only [dgetB, dget]
          rw [if_neg hpb]
        rw [h4]

theorem dgetA_foldl_aStep1 : ∀ (l c : List (String × ℚ)), keysNodup l →
    (∀ k ∈ keys l, k ∉ keys c) →
    ∀ a, dgetA (l.foldl aStep1 c) a =
      if deadzone < |dgetA l a| then dgetA l a else dgetA c a := by
  intro l
  induction l with
  | nil =>
    intro c _ _ a
    have h0 : dgetA ([] : List (String × ℚ)) a = 0 := rfl
    rw [h0, if_neg not_deadzone_lt_abs_zero]
    rfl
  | cons p t ih =>
    intro c hnd hdisj a
    obtain ⟨hp_t, hnd'⟩ : p.1 ∉ keys t ∧ (keys t).Nodup := by
      rw [keysNodup, keys_cons, List.nodup_cons] at hnd
      exact hnd
    have hdisj_t : ∀ k ∈ keys t, k ∉ keys c := by
      intro k hk
      exact hdisj k (by rw [keys_cons]; exact List.mem_cons_of_mem _ hk)
    rw [List.foldl_cons]
    by_cases hlive : deadzone < |p.2|
    · have hstep : aStep1 c p = c ++ [p] := by rw [aStep1, if_pos hlive]
      rw [hstep]
      have hdisj' : ∀ k ∈ keys t, k ∉ keys (c ++ [p]) := by
        intro k hk
        rw [keys_append]
        intro hmem
        rcases List.mem_append.mp hmem with h1 | h2
        · exact hdisj_t k hk h1
        · simp [keys] at h2
          exact hp_t (h2 ▸ hk)
      rw [ih _ hnd' hdisj' a]
      by_cases hpa : p.1 = a
      · have hac : a ∉ keys c := hpa ▸ hdisj p.1 (by rw [keys_cons]; exact List.mem_cons_self _ _)
        have h1 : dgetA t a = 0 := dget_of_not_mem _ _ _ (hpa ▸ hp_t)
        have h2 : dgetA (c ++ [p]) a = p.2 := by
          simp only [dgetA]
          rw [dget_append, if_neg hac]
          simp [dget, hpa]
        have h3 : dgetA (p :: t) a = p.2 := by
          simp only [dgetA, dget]
          rw [if_pos hpa]
        rw [h1, h2, h3, if_neg not_deadzone_lt_abs_zero, if_pos hlive]
      · have h2 : dgetA (c ++ [p]) a = dgetA c a := by
          have : (p.1, p.2) = p := rfl
          rw [← this]
          exact dget_append_single_ne _ _ _ _ _ hpa
        have h3 : dgetA (p :: t) a = dgetA t a := by
          simp only [dgetA, dget]
          rw [if_neg hpa]
        rw [h2, h3]
    · have hstep : aStep1 c p = c := by rw [aStep1, if_neg hlive]
      rw [hstep, ih c hnd' hdisj_t a]
      by_cases hpa : p.1 = a
      · have h1 : dgetA t a = 0 := dget_of_not_mem _ _ _ (hpa ▸ hp_t)
        have h3 : dgetA (p :: t) a = p.2 := by
          simp only [dgetA, dget]
          rw [if_pos hpa]
        rw [h1, h3, if_neg not_deadzone_lt_abs_zero, if_neg hlive]
      · have h3 : dgetA (p :: t) a = dgetA t a := by
          simp only [dgetA, dget]
          rw [if_neg hpa]
        rw [h3]

theorem dgetA_foldl_aStep2 : ∀ (l c : List (String × ℚ)), allLive c → keysNodup l →
    ∀ a, dgetA (l.foldl aStep2 c) a =
      if deadzone < |dgetA c a| then dgetA c a
      else if deadzone < |dgetA l a| then dgetA l a else 0 := by
  intro l
  induction l with
  | nil =>
    intro c hL _ a
    have h0 : dgetA ([] : List (String × ℚ)) a = 0 := rfl
    rw [List.foldl_nil, h0, if_neg not_deadzone_lt_abs_zero]
    by_cases hc : deadzone < |dgetA c a|
    · rw [if_pos hc]
    · rw [if_neg hc]
      by_cases hm : a ∈ keys c
      · exact absurd (allLive_dget c hL a hm) hc
      · exact dget_of_not_mem _ _ _ hm
  | cons p t ih =>
    intro c hL hnd a
    obtain ⟨hp_t, hnd'⟩ : p.1 ∉ keys t ∧ (keys t).Nodup := by
      rw [keysNodup, keys_cons, List.nodup_cons] at hnd
      exact hnd
    rw [List.foldl_cons]
    by_cases hcond : deadzone < |p.2| ∧ |dgetA c p.1| ≤ deadzone
    · have hstep : aStep2 c p = c ++ [p] := by rw [aStep2, if_pos hcond]
      have hpc : p.1 ∉ keys c := by
        intro hm
        exact absurd hcond.2 (not_le.mpr (allLive_dget c hL p.1 hm))
      have hL' : allLive (c ++ [p]) := by
        intro q hq
        rcases List.mem_append.mp hq with h1 | h2
        · exact hL q h1
        · simp at h2
          rw [h2]
          exact hcond.1
      rw [hstep, ih _ hL' hnd' a]
      by_cases hpa : p.1 = a
      · have hca : dgetA c a = 0 := dget_of_not_mem _ _ _ (hpa ▸ hpc)
        have h1 : dgetA t a = 0 := dget_of_not_mem _ _ _ (hpa ▸ hp_t)
        have h2 : dgetA (c ++ [p]) a = p.2 := by
          simp only [dgetA]
          rw [dget_append, if_neg (hpa ▸ hpc)]
          simp [dget, hpa]
        have h3 : dgetA (p :: t) a = p.2 := by
          simp only [dgetA, dget]
          rw [if_pos hpa]
        rw [h2, h1, h3, hca, if_pos hcond.1, if_neg not_deadzone_lt_abs_zero,
          if_pos hcond.1]
      · have h2 : dgetA (c ++ [p]) a = dgetA c a := by
          have : (p.1, p.2) = p := rfl
          rw [← this]
          exact dget_append_single_ne _ _ _ _ _ hpa
        have h3 : dgetA (p :: t) a = dgetA t a := by
          simp only [dgetA, dget]
          rw [if_neg hpa]
        rw [h2, h3]
    · have hstep : aStep2 c p = c := by rw [aStep2, if_neg hcond]
      rw [hstep, ih c hL hnd' a]
      by_cases hpa : p.1 = a
      · have h1 : dgetA t a = 0 := dget_of_not_mem _ _ _ (hpa ▸ hp_t)
        have h3 : dgetA (p :: t) a = p.2 := by
          simp only [dgetA, dget]
          rw [if_pos hpa]
        rw [h1, h3]
        by_cases hc : deadzone < |dgetA c a|
        · rw [if_pos hc, if_pos hc]
        · rw [if_neg hc, if_neg hc, if_neg not_deadzone_lt_abs_zero]
          have hnp : ¬ deadzone < |p.2| := by
            intro hl
            exact hcond ⟨hl, by rw [hpa]; exact le_of_not_lt hc⟩
          rw [if_neg hnp]
      · have h3 : dgetA (p :: t) a = dgetA t a := by
          simp only [dgetA, dget]
          rw [if_neg hpa]
        rw [h3]


theorem combineButtons_dget (p1 p2 : List (String × Bool))
    (h1 : keysNodup p1) (h2 : keysNodup p2) (b : String) :
    dgetB (combineButtons p1 p2) b = (dgetB p1 b || dgetB p2 b) := by
  unfold combineButtons
  have hT1 : allTrue (p1.foldl bStep1 []) :=
    allTrue_foldl_bStep1 p1 [] (fun q hq => absurd hq (List.not_mem_nil q))
  rw [dgetB_foldl_bStep2 p2 _ hT1 h2 b,
    dgetB_foldl_bStep1 p1 [] h1 (fun k _ hk => absurd hk (List.not_mem_nil k)) b]
  rfl

theorem combineAxes_dget (p1 p2 : List (String × ℚ))
    (h1 : keysNodup p1) (h2 : keysNodup p2) (a : String) :
    dgetA (combineAxes p1 p2) a =
      if deadzone < |dgetA p1 a| then dgetA p1 a
      else if deadzone < |dgetA p2 a| then dgetA p2 a else 0 := by
  unfold combineAxes
  have hL1 : allLive (p1.foldl aStep1 []) :=
    allLive_foldl_aStep1 p1 [] (fun q hq => absurd hq (List.not_mem_nil q))
  rw [dgetA_foldl_aStep2 p2 _ hL1 h2 a]
  have hc1 : dgetA (p1.foldl aStep1 []) a =
      if deadzone < |dgetA p1 a| then dgetA p1 a else 0 := by
    rw [dgetA_foldl_aStep1 p1 [] h1 (fun k _ hk => absurd hk (List.not_mem_nil k)) a]
    rfl
  rw [hc1]
  by_cases hp1 : deadzone < |dgetA p1 a|
  · simp [hp1]
  · have hd : ¬ deadzone < (0 : ℚ) := not_lt.mpr (le_of_lt deadzone_pos)
    simp [hp1, hd]

theorem list_getD_set_ne {α : Type} : ∀ (l : List α) (i j : Nat), i ≠ j →
    ∀ (x d : α), (l.set i x).getD j d = l.getD j d := by
  intro l
  induction l with
  | nil =>
    intro i j _ x d
    cases i <;> rfl
  | cons a t ih =>
    intro i j hij x d
    cases i with
    | zero =>
      cases j with
      | zero => exact absurd rfl hij
      | succ j2 => rfl
    | succ i2 =>
      cases j with
      | zero => rfl
      | succ j2 =>
        show (t.set i2 x).getD j2 d = t.getD j2 d
        exact ih i2 j2 (fun he => hij (by rw [he])) x d

theorem list_getD_append_len {α : Type} : ∀ (l : List α) (x d : α),
    (l ++ [x]).getD l.length d = x := by
  intro l
  induction l with
  | nil => intro x d; rfl
  | cons a t ih =>
    intro x d
    show (t ++ [x]).getD t.length d = x
    exact ih x d

/-- C1 (counterexample): the claim that whenever snapshot 1's axis value is
inside the deadzone the merged value equals snapshot 2's raw value fails on
the code: here snapshot 1 is empty (value 0.0, inside the deadzone) and
snapshot 2 holds `axis_0 = 0.05`, yet the merged value is 0.0, not 0.05 —
`combine_inputs` only copies a player-2 axis when its absolute value
exceeds 0.1. -/
theorem combineAxes_sub_deadzone_p2_dropped :
    |dgetA ([] : List (String × ℚ)) "axis_0"| ≤ deadzone ∧
    dgetA [("axis_0", qtwentieth)] "axis_0" = qtwentieth ∧
    dgetA (combineAxes [] [("axis_0", qtwentieth)]) "axis_0" ≠ qtwentieth ∧
    dgetA (combineAxes [] [("axis_0", qtwentieth)]) "axis_0" = 0 := by
  decide

/-- C1 (amended): when snapshot 1's value for an axis is inside the
deadzone (absolute value at most 0.1), the merged value is snapshot 2's
value when that value's absolute value exceeds the deadzone, and 0.0
otherwise; a sub-deadzone snapshot-2 value is dropped (reads as the
default 0.0), not passed through raw. -/
theorem combineAxes_deadzone_fallthrough_amended (p1 p2 : List (String × ℚ))
    (h1 : keysNodup p1) (h2 : keysNodup p2) (a : String)
    (hin : |dgetA p1 a| ≤ deadzone) :
    dgetA (combineAxes p1 p2) a =
      if deadzone < |dgetA p2 a| then dgetA p2 a else 0 := by
  rw [combineAxes_dget p1 p2 h1 h2 a, if_neg (not_lt.mpr hin)]

/-- C1 (witness): spec Scenario B — snapshot 1 has `axis_0 = 0.05` (inside
the deadzone), snapshot 2 has `axis_0 = -0.8`; the merged value is
snapshot 2's. -/
theorem combineAxes_deadzone_fallthrough_amended_witness :
    |dgetA [("axis_0", qtwentieth)] "axis_0"| ≤ deadzone ∧
    dgetA (combineAxes [("axis_0", qtwentieth)] [("axis_0", qneg45)]) "axis_0" =
      if deadzone < |dgetA [("axis_0", qneg45)] "axis_0"| then
        dgetA [("axis_0", qneg45)] "axis_0" else 0 :=
  ⟨by decide,
   combineAxes_deadzone_fallthrough_amended [("axis_0", qtwentieth)] [("axis_0", qneg45)]
     (by decide) (by decide) "axis_0" (by decide)⟩

/-- C2: for every pair of input snapshots (with each snapshot binding an
axis id at most once, as Python dicts do) and every axis id, the merged
value is snapshot 1's value when its absolute value exceeds 0.1; otherwise
snapshot 2's value when its absolute value exceeds 0.1; otherwise 0.0,
with absent keys reading as 0.0. -/
theorem combineAxes_first_input_priority (p1 p2 : List (String × ℚ))
    (h1 : keysNodup p1) (h2 : keysNodup p2) (a : String) :
    dgetA (combineAxes p1 p2) a =
      if deadzone < |dgetA p1 a| then dgetA p1 a
      else if deadzone < |dgetA p2 a| then dgetA p2 a else 0 :=
  combineAxes_dget p1 p2 h1 h2 a

/-- C2 (witness): spec Scenario C — snapshot 1 has `axis_0 = 0.5`,
snapshot 2 has `axis_0 = -0.8`; snapshot 1 wins outright. -/
theorem combineAxes_first_input_priority_witness :
    dgetA (combineAxes [("axis_0", qhalf)] [("axis_0", qneg45)]) "axis_0" =
      if deadzone < |dgetA [("axis_0", qhalf)] "axis_0"| then
        dgetA [("axis_0", qhalf)] "axis_0"
      else if deadzone < |dgetA [("axis_0", qneg45)] "axis_0"| then
        dgetA [("axis_0", qneg45)] "axis_0" else 0 :=
  combineAxes_first_input_priority [("axis_0", qhalf)] [("axis_0", qneg45)]
    (by decide) (by decide) "axis_0"

/-- C3: for every pair of input snapshots (each binding a button id at
most once) and every button id, the merged button value is the logical OR
of the two snapshots' values, with absent keys reading as false. -/
theorem combineButtons_is_or (p1 p2 : List (String × Bool))
    (h1 : keysNodup p1) (h2 : keysNodup p2) (b : String) :
    dgetB (combineButtons p1 p2) b = (dgetB p1 b || dgetB p2 b) :=
  combineButtons_dget p1 p2 h1 h2 b

/-- C3 (witness): spec Scenario A — snapshot 1 presses `button_0`,
snapshot 2 has `button_0` unpressed and `button_1` pressed; `button_1`
is active in the merge. -/
theorem combineButtons_is_or_witness :
    dgetB (combineButtons [("button_0", true)] [("button_0", false), ("button_1", true)])
        "button_1" =
      (dgetB [("button_0", true)] "button_1" ||
        dgetB [("button_0", false), ("button_1", true)] "button_1") :=
  combineButtons_is_or [("button_0", true)] [("button_0", false), ("button_1", true)]
    (by decide) (by decide) "button_1"

/-- C4 (counterexample): merging with an absent snapshot is not exact
pass-through: with snapshot 2 absent and snapshot 1 holding
`axis_0 = 0.05` (inside the deadzone), the merged value is 0.0, not
snapshot 1's 0.05. -/
theorem combine_pass_through_counterexample :
    dgetA [("axis_0", qtwentieth)] "axis_0" = qtwentieth ∧
    dgetA (combineAxes [("axis_0", qtwentieth)] []) "axis_0" ≠
      dgetA [("axis_0", qtwentieth)] "axis_0" ∧
    dgetA (combineAxes [("axis_0", qtwentieth)] []) "axis_0" = 0 := by
  decide

/-- C4 (amended): when one snapshot is absent (all-default), buttons pass
through exactly from the present snapshot, and axes pass through the
deadzone filter: the merged axis value equals the present snapshot's value
when its absolute value exceeds 0.1 and is 0.0 otherwise. -/
theorem combine_absent_snapshot_amended (bs : List (String × Bool))
    (aq : List (String × ℚ)) (hb : keysNodup bs) (ha : keysNodup aq) :
    (∀ b, dgetB (combineButtons bs []) b = dgetB bs b) ∧
    (∀ b, dgetB (combineButtons [] bs) b = dgetB bs b) ∧
    (∀ a, dgetA (combineAxes aq []) a =
      if deadzone < |dgetA aq a| then dgetA aq a else 0) ∧
    (∀ a, dgetA (combineAxes [] aq) a =
      if deadzone < |dgetA aq a| then dgetA aq a else 0) := by
  have hnodupB : keysNodup ([] : List (String × Bool)) := List.nodup_nil
  have hnodupA : keysNodup ([] : List (String × ℚ)) := List.nodup_nil
  have hd : ¬ deadzone < (0 : ℚ) := not_lt.mpr (le_of_lt deadzone_pos)
  refine ⟨fun b => ?_, fun b => ?_, fun a => ?_, fun a => ?_⟩
  · rw [combineButtons_dget bs [] hb hnodupB b]
    simp [dgetB, dget]
  · rw [combineButtons_dget [] bs hnodupB hb b]
    simp [dgetB, dget]
  · rw [combineAxes_dget aq [] ha hnodupA a]
    by_cases hp : deadzone < |dgetA aq a|
    · simp [hp]
    · simp [hp, dgetA, dget, hd]
  · rw [combineAxes_dget [] aq hnodupA ha a]
    simp [dgetA, dget, hd]

/-- C4 (witness): concrete pass-through instances — a pressed button
passes through; an above-deadzone axis passes through. -/
theorem combine_absent_snapshot_amended_witness :
    dgetB (combineButtons [("button_0", true)] []) "button_0" =
      dgetB [("button_0", true)] "button_0" ∧
    dgetA (combineAxes [("axis_0", qhalf)] []) "axis_0" =
      if deadzone < |dgetA [("axis_0", qhalf)] "axis_0"| then
        dgetA [("axis_0", qhalf)] "axis_0" else 0 :=
  ⟨(combine_absent_snapshot_amended [("button_0", true)] [("axis_0", qhalf)]
      (by decide) (by decide)).1 "button_0",
   (combine_absent_snapshot_amended [("button_0", true)] [("axis_0", qhalf)]
      (by decide) (by decide)).2.2.1 "axis_0"⟩

/-- C5: the spec-modelled report-encoder axis scaling
`round((value + 1.0) * 127.5)` clamped into [0, 255] is exact at the
boundaries — -1.0 encodes to byte 0, 0.0 to byte 128, 1.0 to byte 255 —
and monotonic: a strictly larger axis value never yields a smaller
encoded byte. -/
theorem scaleAxis_boundary_monotone :
    scaleAxis (-1) = 0 ∧ scaleAxis 0 = 128 ∧ scaleAxis 1 = 255 ∧
    ∀ x y : ℚ, x < y → scaleAxis x ≤ scaleAxis y := by
  refine ⟨?_, ?_, ?_, ?_⟩
  · norm_num [scaleAxis, round_eq]
  · norm_num [scaleAxis, round_eq]
  · norm_num [scaleAxis, round_eq]
  · intro x y hxy
    unfold scaleAxis
    have harg : (x + 1) * (255 / 2) ≤ (y + 1) * (255 / 2) := by
      have h255 : (0 : ℚ) ≤ 255 / 2 := by norm_num
      exact mul_le_mul_of_nonneg_right (by linarith) h255
    have hr : round ((x + 1) * (255 / 2)) ≤ round ((y + 1) * (255 / 2)) := by
      rw [round_eq, round_eq]
      exact Int.floor_le_floor (by linarith)
    exact min_le_min (le_refl 255) (max_le_max (le_refl 0) hr)

/-- C5 (witness): applying the scaling theorem at the concrete strictly
ordered pair -1 < 1 of boundary inputs. -/
theorem scaleAxis_boundary_monotone_witness :
    (-1 : ℚ) < 1 ∧ scaleAxis (-1) ≤ scaleAxis 1 :=
  ⟨by norm_num, scaleAxis_boundary_monotone.2.2.2 (-1) 1 (by norm_num)⟩

/-- C6 (counterexample): starting twice from an initialized, stopped
controller returns success both times, but the second `start` is not a
no-op — it spawns a second output-loop thread, so two output cycles are
live afterwards. -/
theorem start_twice_counterexample :
    (vcInit.start).2 = true ∧ ((vcInit.start).1.start).2 = true ∧
    ((vcInit.start).1.start).1 ≠ (vcInit.start).1 ∧
    (vcInit.start).1.output_threads = 1 ∧
    ((vcInit.start).1.start).1.output_threads = 2 := by
  decide

/-- C6 (amended): calling `start()` a second time without an intervening
`stop()` returns success both times, but it is not a no-op: the second
call spawns one more output-loop thread (the output cycle is duplicated),
leaving two more live output loops than before the first call. -/
theorem start_twice_amended (s : VCState) (h : s.inited = true) :
    (s.start).2 = true ∧ ((s.start).1.start).2 = true ∧
    ((s.start).1.start).1.output_threads = s.output_threads + 2 := by
  simp [VCState.start, h]

/-- C6 (witness): the amended statement at the initialized idle
controller. -/
theorem start_twice_amended_witness :
    (vcInit.start).2 = true ∧ ((vcInit.start).1.start).2 = true ∧
    ((vcInit.start).1.start).1.output_threads = vcInit.output_threads + 2 :=
  start_twice_amended vcInit (by decide)

/-- C7: calling `stop()` when the driver is not running (including before
any `start()`) is a no-op: the embedded `stop` is total (raises nothing)
and returns the state unchanged. -/
theorem stop_not_running_noop (s : VCState) (h : s.is_running = false) :
    s.stop = s := by
  simp [VCState.stop, h]

/-- C7 (witness): `stop` on the freshly initialized, never-started
controller leaves it unchanged. -/
theorem stop_not_running_noop_witness :
    vcInit.is_running = false ∧ vcInit.stop = vcInit :=
  ⟨rfl, stop_not_running_noop vcInit rfl⟩

/-- C8: the output loop can send a torn mixture of two updates.  The loop
body reads `self.state` once for the buttons (line 70) and again for the
axes (line 71) with no lock; if `update_state` swaps the state from
`heldU1` to `heldU2` between the two reads, the tick sends the buttons of
`heldU1` together with the axes of `heldU2` — a combination matching
neither update, contradicting the never-torn claim. -/
theorem output_loop_torn_send :
    outputTickSent heldU1 heldU2 ≠ outputTickSent heldU1 heldU1 ∧
    outputTickSent heldU1 heldU2 ≠ outputTickSent heldU2 heldU2 := by
  constructor
  · intro h
    have h2 : activeAxes heldU2 = activeAxes heldU1 := congrArg Prod.snd h
    have e2 : activeAxes heldU2 = [("axis_0", round2 qhalf)] := rfl
    have e1 : activeAxes heldU1 = [] := rfl
    rw [e2, e1] at h2
    exact List.cons_ne_nil _ _ h2
  · intro h
    have h1 : activeButtons heldU1 = activeButtons heldU2 := congrArg Prod.fst h
    have e1 : activeButtons heldU1 = ["button_0"] := rfl
    have e2 : activeButtons heldU2 = [] := rfl
    rw [e1, e2] at h1
    exact List.cons_ne_nil _ _ h1

/-- C9: after every merge the combined state contains only active
entries: every stored button entry is `true` and every stored axis entry
has absolute value strictly greater than the deadzone 0.1. -/
theorem combine_only_active_entries (p1b p2b : List (String × Bool))
    (p1a p2a : List (String × ℚ)) :
    allTrue (combineButtons p1b p2b) ∧ allLive (combineAxes p1a p2a) :=
  ⟨allTrue_foldl_bStep2 p2b _
      (allTrue_foldl_bStep1 p1b [] (fun q hq => absurd hq (List.not_mem_nil q))),
   allLive_foldl_aStep2 p2a _
      (allLive_foldl_aStep1 p1a [] (fun q hq => absurd hq (List.not_mem_nil q)))⟩

/-- C9 (witness): the invariant at a concrete merge. -/
theorem combine_only_active_entries_witness :
    allTrue (combineButtons [("button_0", true)] [("button_1", true)]) ∧
    allLive (combineAxes [("axis_0", qhalf)] [("axis_0", qneg45)]) :=
  combine_only_active_entries [("button_0", true)] [("button_1", true)]
    [("axis_0", qhalf)] [("axis_0", qneg45)]

/-- C10: `update_state` stores copies — after `update_state`, overwriting
the caller's button and axis cells in place leaves the contents of the
stored cells equal to the contents at call time, so a subsequent output
tick computed from the stored cells sends the same data as if the caller
had not mutated anything. -/
theorem update_state_defensive_copy (h : PyHeap) (rb ra : Nat)
    (hrb : rb < h.bcells.length) (hra : ra < h.acells.length)
    (db : List (String × Bool)) (da : List (String × ℚ)) :
    ((((update_state h rb ra).1.writeB rb db).writeA ra da).readB
        (update_state h rb ra).2.buttonsRef = h.readB rb) ∧
    ((((update_state h rb ra).1.writeB rb db).writeA ra da).readA
        (update_state h rb ra).2.axesRef = h.readA ra) ∧
    outputTickSent
        ⟨(((update_state h rb ra).1.writeB rb db).writeA ra da).readB
            (update_state h rb ra).2.buttonsRef,
          (((update_state h rb ra).1.writeB rb db).writeA ra da).readA
            (update_state h rb ra).2.axesRef⟩
        ⟨(((update_state h rb ra).1.writeB rb db).writeA ra da).readB
            (update_state h rb ra).2.buttonsRef,
          (((update_state h rb ra).1.writeB rb db).writeA ra da).readA
            (update_state h rb ra).2.axesRef⟩ =
      outputTickSent ⟨h.readB rb, h.readA ra⟩ ⟨h.readB rb, h.readA ra⟩ := by
  have hB : (((update_state h rb ra).1.writeB rb db).writeA ra da).readB
      (update_state h rb ra).2.buttonsRef = h.readB rb := by
    show ((h.bcells ++ [h.readB rb]).set rb db).getD h.bcells.length [] = h.readB rb
    rw [list_getD_set_ne _ rb _ (Nat.ne_of_lt hrb) db []]
    exact list_getD_append_len h.bcells (h.readB rb) []
  have hA : (((update_state h rb ra).1.writeB rb db).writeA ra da).readA
      (update_state h rb ra).2.axesRef = h.readA ra := by
    show ((h.acells ++ [h.readA ra]).set ra da).getD h.acells.length [] = h.readA ra
    rw [list_getD_set_ne _ ra _ (Nat.ne_of_lt hra) da []]
    exact list_getD_append_len h.acells (h.readA ra) []
  refine ⟨hB, hA, ?_⟩
  rw [hB, hA]

/-- C10 (witness): the defensive copy at the concrete heap `heap0`, with
the caller's cells cleared after the call. -/
theorem update_state_defensive_copy_witness :
    0 < heap0.bcells.length ∧
    ((((update_state heap0 0 0).1.writeB 0 []).writeA 0 []).readB
        (update_state heap0 0 0).2.buttonsRef = heap0.readB 0) :=
  ⟨by decide,
   (update_state_defensive_copy heap0 0 0 (by decide) (by decide) [] []).1⟩
